import Mathlib

/-!
Verification development for the climate_toolbox repository
(climate_toolbox/climate_toolbox.py).

The embedding models the floating point cell values of the gridded
climate data with an explicit value type: a rational payload plus the
special values NaN, positive infinity and negative infinity.  The
comparison and arithmetic operators below follow the IEEE rules that
numpy applies in the operations the source performs; rounding is
immaterial to every claim under study, so finite arithmetic is exact
rational arithmetic.
-/

/-- Model of a floating point cell value: NaN, plus infinity, minus
infinity, or a finite (rational) number. -/
inductive FVal where
  | nan
  | inf
  | neginf
  | fin (q : ℚ)
deriving DecidableEq

/-- Test for NaN, as in numpy isnan and xarray isnull. -/
def isnan : FVal → Bool
  | .nan => true
  | _ => false

/-- Test for either infinity, as in numpy isinf. -/
def isinf : FVal → Bool
  | .inf => true
  | .neginf => true
  | _ => false

/-- Test used by numpy ma.masked_invalid: NaN or either infinity. -/
def isinvalid (v : FVal) : Bool := isnan v || isinf v

/-- Test used by xarray isnull on float data: NaN only. -/
def isnull (v : FVal) : Bool := isnan v

/-- IEEE strict less-than: any comparison with NaN is false. -/
def flt : FVal → FVal → Bool
  | .nan, _ => false
  | _, .nan => false
  | .neginf, .neginf => false
  | .neginf, _ => true
  | _, .neginf => false
  | .inf, _ => false
  | .fin _, .inf => true
  | .fin a, .fin b => decide (a < b)

/-- IEEE less-or-equal: any comparison with NaN is false. -/
def fle : FVal → FVal → Bool
  | .nan, _ => false
  | _, .nan => false
  | .neginf, _ => true
  | _, .neginf => false
  | _, .inf => true
  | .inf, _ => false
  | .fin a, .fin b => decide (a ≤ b)

/-- IEEE greater-than, defined by flipping flt as numpy does. -/
def fgt (a b : FVal) : Bool := flt b a

/-- IEEE addition on the modelled values. -/
def fadd : FVal → FVal → FVal
  | .nan, _ => .nan
  | _, .nan => .nan
  | .inf, .neginf => .nan
  | .neginf, .inf => .nan
  | .inf, _ => .inf
  | _, .inf => .inf
  | .neginf, _ => .neginf
  | _, .neginf => .neginf
  | .fin a, .fin b => .fin (a + b)

/-- IEEE multiplication on the modelled values; infinity times zero is
NaN. -/
def fmul : FVal → FVal → FVal
  | .nan, _ => .nan
  | _, .nan => .nan
  | .inf, .inf => .inf
  | .inf, .neginf => .neginf
  | .neginf, .inf => .neginf
  | .neginf, .neginf => .inf
  | .inf, .fin q => if q = 0 then .nan else if 0 < q then .inf else .neginf
  | .fin q, .inf => if q = 0 then .nan else if 0 < q then .inf else .neginf
  | .neginf, .fin q => if q = 0 then .nan else if 0 < q then .neginf else .inf
  | .fin q, .neginf => if q = 0 then .nan else if 0 < q then .neginf else .inf
  | .fin a, .fin b => .fin (a * b)

/-- IEEE division on the modelled values; a finite nonzero number over
zero is a signed infinity, zero over zero is NaN.  The model has a
single zero, so the sign convention of negative zero is not
represented; no claim depends on it. -/
def fdiv : FVal → FVal → FVal
  | .nan, _ => .nan
  | _, .nan => .nan
  | .inf, .inf => .nan
  | .inf, .neginf => .nan
  | .neginf, .inf => .nan
  | .neginf, .neginf => .nan
  | .inf, .fin q => if 0 ≤ q then .inf else .neginf
  | .neginf, .fin q => if 0 ≤ q then .neginf else .inf
  | .fin _, .inf => .fin 0
  | .fin _, .neginf => .fin 0
  | .fin a, .fin b =>
      if b = 0 then (if a = 0 then .nan else if 0 < a then .inf else .neginf)
      else .fin (a / b)

/-- Elementwise model of the xarray where method: keep the value when
the condition holds, otherwise NaN. -/
def fwhere (v : FVal) (c : Bool) : FVal := if c then v else .nan

/-- Elementwise model of the xarray fillna method: replace NaN by the
fallback value, keep everything else. -/
def ffillna (v b : FVal) : FVal := if v = .nan then b else v

/-- Model of _fill_holes_xr lines 79 to 82: the variable is first kept
where it is not infinite, then kept where it is strictly below 1e10;
each where call turns the rejected cells into NaN. -/
def fill_holes_xr_normalize (v : FVal) : FVal :=
  let w := fwhere v (!isinf v)
  fwhere w (flt w (.fin 10000000000))

/-- Missingness predicate asserted by claim C5: NaN, either infinity,
or finite with magnitude strictly above the sentinel 1e10. -/
def claim_sentinel_missing (v : FVal) : Bool :=
  isnan v || isinf v ||
    (match v with
     | .fin q => decide ((10000000000 : ℚ) < |q|)
     | _ => false)

/-- Missingness predicate actually implemented by the code: NaN, either
infinity, or finite and at least 1e10.  A finite value below minus 1e10
is kept, and the value 1e10 itself is dropped. -/
def amended_sentinel_missing (v : FVal) : Bool :=
  isnan v || isinf v ||
    (match v with
     | .fin q => decide ((10000000000 : ℚ) ≤ q)
     | _ => false)

/-!
Point indexed data and the weighted regional reducer,
_aggregate_reindexed_data_to_regions (lines 340 to 398).  After the
reindex step every sample point carries the field value (one value per
broadcast position), the primary weight, the backup weight and the
region id taken from the weights table row of the same point index.
The source attaches the region id and the primary weight as
coordinates of the reindexed dataset (lines 373 to 380); the record
below is the embedding of that point indexed object.  Region ids are
compared by exact equality in the source groupby, modelled as integers
here.
-/

/-- One sample point of the point indexed object: field value per
broadcast position, primary weight, backup weight and region id. -/
structure Pt where
  value : ℕ → FVal
  aggwt : FVal
  backup : FVal
  region : ℤ

/-- Model of lines 382 to 385: the primary weight is kept where it is
strictly positive (anything else, NaN included, becomes NaN) and the
NaN cells are then filled from the backup weight column.  The source
computes this substituted array once and uses it in both sums below;
the embedding recomputes the same pure value at each use. -/
def substWeight (w b : FVal) : FVal :=
  ffillna (fwhere w (fgt w (.fin 0))) b

/-- Points of one region group, as selected by the source groupby on
exact equality of the region id. -/
def regionPts (pts : List Pt) (r : ℤ) : List Pt :=
  pts.filter (fun p => decide (p.region = r))

/-- Model of the xarray sum with default skipna over float data: NaN
entries are dropped, the rest are added left to right starting from
zero (an empty or all NaN group sums to zero, as numpy nansum does). -/
def sumSkipNA (xs : List FVal) : FVal :=
  (xs.filter (fun v => !isnan v)).foldl fadd (.fin 0)

/-- Numerator of the weighted average of one region group at one
broadcast position: sum over the group of value times substituted
weight (lines 387 to 392). -/
def regionNum (pts : List Pt) (r : ℤ) (t : ℕ) : FVal :=
  sumSkipNA ((regionPts pts r).map
    (fun p => fmul (p.value t) (substWeight p.aggwt p.backup)))

/-- Denominator of the weighted average of one region group: sum over
the group of the substituted weight (lines 393 to 396). -/
def regionDen (pts : List Pt) (r : ℤ) : FVal :=
  sumSkipNA ((regionPts pts r).map
    (fun p => substWeight p.aggwt p.backup))

/-- The weighted average the reducer stores for one region at one
broadcast position: numerator over denominator, with no masking of the
division result (lines 387 to 398). -/
def aggregate (pts : List Pt) (r : ℤ) (t : ℕ) : FVal :=
  fdiv (regionNum pts r t) (regionDen pts r)

/-- Substitution policy as worded by the specification for claim C4: a
point whose primary weight is missing or not positive uses the backup
weight, every other point uses the primary weight unchanged, and the
substituted value is not checked again. -/
def spec_substituted_weight (w b : FVal) : FVal :=
  if isnan w || fle w (.fin 0) then b else w

/-- Test for a value that is NaN or infinite, used to state claim C8. -/
def nonfinite : FVal → Bool
  | .fin _ => false
  | _ => true

/-- Predicate keeping the points whose primary or backup weight is
present; its complement, points with both weights NaN, is the case of
claim C9. -/
def someWeightPresent (p : Pt) : Bool :=
  !(isnan p.aggwt && isnan p.backup)

/-- Concrete one point table used by the claim C8 witness: value 3,
both weights zero, region 0, so the substituted weights of region 0 sum
to exactly zero. -/
def ptsZeroWt : List Pt :=
  [{ value := fun _ => .fin 3, aggwt := .fin 0, backup := .fin 0, region := 0 }]

/-!
Point reindexing, _reindex_spatial_data_to_regions (lines 310 to 337).
The source selects, for every weights table row, the grid cell whose
lon and lat coordinate values exactly equal the lon and lat entries of
the row, using the xarray sel method with vectorized point indexers;
the spatial dimensions are replaced by the single reshape_index
dimension whose length is the table row count.  A row with no exact
coordinate match raises a lookup error, modelled by the Option result.
-/

/-- A gridded dataset: broadcast (time) length T, spatial axis lengths
R (lat) and C (lon), the physical coordinate arrays, and the cell
values indexed by broadcast position, lat index and lon index. -/
structure GridDS where
  T : ℕ
  R : ℕ
  C : ℕ
  lat : ℕ → ℚ
  lon : ℕ → ℚ
  val : ℕ → ℕ → ℕ → FVal

/-- The point indexed dataset produced by the reindex step: the
spatial axes are replaced by a point index of length npoints; the
broadcast dimension is preserved. -/
structure PointDS where
  T : ℕ
  npoints : ℕ
  val : ℕ → ℕ → FVal

/-- Position of the first axis entry whose coordinate value equals the
requested value exactly, as the xarray exact sel lookup does. -/
def coordIdx (n : ℕ) (coord : ℕ → ℚ) (q : ℚ) : Option ℕ :=
  (List.range n).find? (fun a => decide (coord a = q))

/-- Model of _reindex_spatial_data_to_regions: every table row (given
as a lon and lat pair, in the order the source reads the lon and lat
columns) must have an exact coordinate match; the resulting point
indexed object reads, at point k and broadcast position t, the grid
value at the matched lat and lon indices of row k. -/
def _reindex_spatial_data_to_regions (ds : GridDS) (rows : List (ℚ × ℚ)) :
    Option PointDS :=
  if rows.all (fun row => (coordIdx ds.C ds.lon row.1).isSome
      && (coordIdx ds.R ds.lat row.2).isSome) then
    some { T := ds.T, npoints := rows.length,
           val := fun k t =>
             match rows.get? k with
             | some row =>
                 match coordIdx ds.C ds.lon row.1, coordIdx ds.R ds.lat row.2 with
                 | some b, some a => ds.val t a b
                 | _, _ => .nan
             | none => .nan }
  else none

/-!
The public pipeline weighted_aggregate_grid_to_regions (lines 497 to
544).  In the source the local name ds is rebound to the object the
reindex step returns: the xarray sel call with vectorized indexers
constructs a new dataset, so the coordinate and variable assignments
performed afterwards inside _aggregate_reindexed_data_to_regions
(lines 373 to 385) mutate that new object, never the dataset owned by
the caller; the weights table is only ever read.  The embedding makes
this explicit by threading the two caller owned inputs through the
function as state and returning them alongside the result.
-/

/-- One row of the weights table: sample point coordinates, primary
weight column entry, backup weight column entry, and region id. -/
structure WRow where
  lon : ℚ
  lat : ℚ
  aggwt : FVal
  backup : FVal
  region : ℤ

/-- Attachment of the weights table columns to the reindexed point
object (lines 373 to 380): point k carries the reindexed field values
together with the weights and region id of table row k. -/
def mkPts (pds : PointDS) (rows : List WRow) : List Pt :=
  (List.range rows.length).map (fun k =>
    match rows.get? k with
    | some row => { value := fun t => pds.val k t, aggwt := row.aggwt,
                    backup := row.backup, region := row.region }
    | none => { value := fun _ => .nan, aggwt := .nan, backup := .nan, region := 0 })

/-- The reduced output: one value per region id and broadcast
position, region ids now the leading dimension. -/
structure AggResult where
  valAt : ℤ → ℕ → FVal

/-- Model of _aggregate_reindexed_data_to_regions applied to the
reindexed object: attach the table columns and store the grouped
weighted average. -/
def _aggregate_reindexed_data_to_regions (pds : PointDS) (rows : List WRow) :
    AggResult :=
  { valAt := fun r t => aggregate (mkPts pds rows) r t }

/-- Model of the public weighted_aggregate_grid_to_regions: reindex,
then reduce; the caller owned dataset and weights table are threaded
through unchanged and returned next to the result. -/
def weighted_aggregate_grid_to_regions (ds : GridDS) (rows : List WRow) :
    Option AggResult × GridDS × List WRow :=
  match _reindex_spatial_data_to_regions ds (rows.map (fun r => (r.lon, r.lat))) with
  | some pds => (some (_aggregate_reindexed_data_to_regions pds rows), ds, rows)
  | none => (none, ds, rows)

/-- Concrete two by two grid used by the claim C1 witness; the
coordinate arrays are the index values themselves and every cell holds
a distinct finite value. -/
def ds0 : GridDS :=
  { T := 1, R := 2, C := 2,
    lat := fun i => (i : ℚ),
    lon := fun j => (j : ℚ),
    val := fun _ a b => .fin (((10 * a + b : ℕ) : ℚ)) }

/-- Concrete one row table for the claim C1 witness: lon 0, lat 1,
which exactly matches lon index 0 and lat index 1 of ds0. -/
def rows0 : List (ℚ × ℚ) := [(0, 1)]

/-!
The iterative hole filling engine, iterative_fill_holes (lines 107 to
217).  One 2-D slice is a value function V over lat index i below R
and lon index j below C, together with the coordinate arrays lat and
lon.  The loop tests for NaN cells (xarray isnull), while the mask
built from numpy ma.masked_invalid also marks infinities; both tests
are kept distinct here.  The scattered interpolator (scipy griddata)
is an external collaborator and is taken as an explicit function
argument from source triples (lat, lon, value) to an estimate at a
coordinate pair.  Steps of the source that raise a Python exception
(selecting an index set that is empty, or a grown lat index that
overflows the first meshgrid axis, whose length is the lon axis
length) are modelled with an Except error result.
-/

/-- Concatenation of a list of lists, used to enumerate cells in the
row major order numpy uses. -/
def catLists {α : Type} : List (List α) → List α
  | [] => []
  | l :: ls => l ++ catLists ls

/-- Whether any cell of the slice is NaN, as the loop guard
da.isnull().any() tests. -/
def anyNull (R C : ℕ) (V : ℕ → ℕ → FVal) : Bool :=
  (List.range R).any (fun i => (List.range C).any (fun j => isnull (V i j)))

/-- Whether row i restricted to the half open lon index range jlo to
jhi contains a NaN, as the lat edge growth conditions test with an
exclusive python slice. -/
def rowNullAny (V : ℕ → ℕ → FVal) (i jlo jhi : ℕ) : Bool :=
  (List.range' jlo (jhi - jlo)).any (fun j => isnull (V i j))

/-- Whether column j restricted to the half open lat index range ilo
to ihi contains a NaN, as the lon edge growth conditions test. -/
def colNullAny (V : ℕ → ℕ → FVal) (ilo ihi j : ℕ) : Bool :=
  (List.range' ilo (ihi - ilo)).any (fun i => isnull (V i j))

/-- The invalid cells of the slice in row major order, the support of
the mask mp built in lines 140 to 144. -/
def missingCells (R C : ℕ) (V : ℕ → ℕ → FVal) : List (ℕ × ℕ) :=
  catLists ((List.range R).map (fun i =>
    ((List.range C).filter (fun j => isinvalid (V i j))).map (fun j => (i, j))))

/-- Four connectivity adjacency of two cells. -/
def cellAdj (p q : ℕ × ℕ) : Bool :=
  (decide (p.1 = q.1) && (decide (p.2 = q.2 + 1) || decide (q.2 = p.2 + 1))) ||
  (decide (p.2 = q.2) && (decide (p.1 = q.1 + 1) || decide (q.1 = p.1 + 1)))

/-- Insertion of one cell into a running list of connected components:
all components adjacent to the cell are merged with it, the others are
kept.  A fresh cell opens a new component at the end, so components
are ordered by first encounter in the row major scan, matching the
label order of scipy ndimage label on the examples used here; no claim
depends on the numbering order beyond label zero being the
background. -/
def addCell (comps : List (List (ℕ × ℕ))) (p : ℕ × ℕ) : List (List (ℕ × ℕ)) :=
  let adj := comps.filter (fun c => c.any (fun q => cellAdj p q))
  let rest := comps.filter (fun c => !c.any (fun q => cellAdj p q))
  match adj with
  | [] => comps ++ [[p]]
  | _ => rest ++ [p :: catLists adj]

/-- Connected components of a cell list under four connectivity. -/
def components (cells : List (ℕ × ℕ)) : List (List (ℕ × ℕ)) :=
  cells.foldl addCell []

/-- Number of connected patches of invalid cells, the n_ptch returned
by scipy ndimage label in line 146. -/
def nPatches (R C : ℕ) (V : ℕ → ℕ → FVal) : ℕ :=
  (components (missingCells R C V)).length

/-- Label of a cell in the scipy convention: patches carry labels one
to nPatches, every valid cell carries label zero (the background). -/
def patchLabel (R C : ℕ) (V : ℕ → ℕ → FVal) (p : ℕ × ℕ) : ℕ :=
  match (components (missingCells R C V)).findIdx?
      (fun c => c.any (fun q => decide (q = p))) with
  | some k => k + 1
  | none => 0

/-- The support of np.random.choice(range(n_ptch)) in line 151: the
labels the random draw can produce. -/
def possibleDraws (R C : ℕ) (V : ℕ → ℕ → FVal) : List ℕ :=
  List.range (nPatches R C V)

/-- Lat indices of the rows in which the selected label occurs, the
ilat array of line 153. -/
def selLatIdxs (R C : ℕ) (V : ℕ → ℕ → FVal) (ip : ℕ) : List ℕ :=
  (List.range R).filter (fun i =>
    (List.range C).any (fun j => decide (patchLabel R C V (i, j) = ip)))

/-- Lon indices of the columns in which the selected label occurs, the
ilon array of line 157. -/
def selLonIdxs (R C : ℕ) (V : ℕ → ℕ → FVal) (ip : ℕ) : List ℕ :=
  (List.range C).filter (fun j =>
    (List.range R).any (fun i => decide (patchLabel R C V (i, j) = ip)))

/-- Downward edge growth (lines 161 to 167 and 177 to 183): while the
condition holds at the current edge index, move it down by one,
stopping without a further check once index zero is reached. -/
def growMinAux (cond : ℕ → Bool) : ℕ → ℕ
  | 0 => 0
  | i + 1 => if cond (i + 1) then growMinAux cond i else i + 1

/-- Upward edge growth, fuelled by the distance to the last index:
while the condition holds, move the edge up by one, stopping without a
further check once the last index is reached. -/
def growMaxAux (cond : ℕ → Bool) : ℕ → ℕ → ℕ
  | 0, i => i
  | d + 1, i => if cond i then growMaxAux cond d (i + 1) else i

/-- Upward edge growth on an axis of the given length (lines 169 to
175 and 185 to 191). -/
def growMax (cond : ℕ → Bool) (len i : ℕ) : ℕ :=
  growMaxAux cond (len - 1 - i) i

/-- The four grown index bounds of one fill iteration. -/
structure Window where
  iminLat : ℕ
  imaxLat : ℕ
  iminLon : ℕ
  imaxLon : ℕ
deriving DecidableEq

/-- Python exceptions the fill iteration can raise: the random draw on
an empty range (n_ptch zero), taking min or max of an empty index
array (line 154, reached when the drawn label occurs in no cell), and
indexing the first meshgrid axis, whose length is the lon axis length,
with a lat index that is too large (line 198). -/
inductive FillErr where
  | noPatch
  | emptyPatchIdx
  | meshIndex
deriving DecidableEq

/-- First meshgrid output of line 193: with the default xy indexing of
np.meshgrid the array has the lon axis first, and entry (j, i) is the
lat coordinate at i. -/
def ravel_lats (lat : ℕ → ℚ) (_j i : ℕ) : ℚ := lat i

/-- Second meshgrid output of line 193: entry (j, i) is the lon
coordinate at j. -/
def ravel_lons (lon : ℕ → ℚ) (j _i : ℕ) : ℚ := lon j

/-- The selection condition of lines 197 to 201, translated exactly:
indexing ravel_lats with the single grown lat index selects the row of
the first axis with that position, and the comparison broadcasts that
row elementwise over the second axis.  Entry (j, i) is compared
against ravel_lats at (iminLat, i), which is the lat coordinate at i
itself, so both lat conjuncts compare a value with itself; the lon
conjuncts compare the lon coordinate at j against the lon coordinates
at the grown lon bounds. -/
def extractCond (lat lon : ℕ → ℚ) (w : Window) (j i : ℕ) : Bool :=
  decide (ravel_lats lat j i ≥ ravel_lats lat w.iminLat i) &&
  decide (ravel_lats lat j i ≤ ravel_lats lat w.imaxLat i) &&
  decide (ravel_lons lon j i ≥ ravel_lons lon w.iminLon i) &&
  decide (ravel_lons lon j i ≤ ravel_lons lon w.imaxLon i)

/-- The selection condition claim C2 asserts: the cell coordinates lie
inside the coordinate value window spanned by the grown lat and lon
bounds on both axes. -/
def claim_window_cond (lat lon : ℕ → ℚ) (w : Window) (i j : ℕ) : Bool :=
  decide (lat w.iminLat ≤ lat i) && decide (lat i ≤ lat w.imaxLat) &&
  decide (lon w.iminLon ≤ lon j) && decide (lon j ≤ lon w.imaxLon)

/-- The cells np.where returns for the selection condition, in the row
major order of the meshgrid shape, whose first axis is lon. -/
def extractedCells (R C : ℕ) (lat lon : ℕ → ℚ) (w : Window) : List (ℕ × ℕ) :=
  catLists ((List.range C).map (fun j =>
    ((List.range R).filter (fun i => extractCond lat lon w j i)).map (fun i => (i, j))))

/-- The known interpolation sources of lines 206 to 211: the extracted
cells that are not masked, each paired with its lat and lon coordinate
values and its current value. -/
def fillSources (R C : ℕ) (lat lon : ℕ → ℚ) (V : ℕ → ℕ → FVal) (w : Window) :
    List (ℚ × ℚ × FVal) :=
  ((extractedCells R C lat lon w).filter (fun p => !isinvalid (V p.1 p.2))).map
    (fun p => (lat p.1, lon p.2, V p.1 p.2))

/-- The assignment of line 213: every extracted cell receives the
interpolation estimate at its own coordinates, every other cell keeps
its value. -/
def writeBack (R C : ℕ) (lat lon : ℕ → ℚ)
    (interp : List (ℚ × ℚ × FVal) → ℚ → ℚ → FVal)
    (V : ℕ → ℕ → FVal) (w : Window) : ℕ → ℕ → FVal :=
  fun i j =>
    if decide (i < R) && decide (j < C) && extractCond lat lon w j i then
      interp (fillSources R C lat lon V w) (lat i) (lon j)
    else V i j

/-- Patch selection, bounding box and edge growth of one iteration
(lines 146 to 201 up to the meshgrid indexing): label the invalid
cells, draw a label from range n_ptch, take the min and max lat and
lon indices of the cells carrying the drawn label, then grow the four
edges in the order of the source, the lat edges against the original
lon bounds and the lon edges against the grown lat bounds. -/
def fillWindow (R C : ℕ) (lat lon : ℕ → ℚ) (V : ℕ → ℕ → FVal) (draw : ℕ) :
    Except FillErr Window :=
  let n := nPatches R C V
  if n = 0 then .error .noPatch
  else
    let ipatch := draw % n
    match selLatIdxs R C V ipatch, selLonIdxs R C V ipatch with
    | [], _ => .error .emptyPatchIdx
    | _ :: _, [] => .error .emptyPatchIdx
    | i0 :: irest, j0 :: jrest =>
      let iminLat := (i0 :: irest).foldl Nat.min i0
      let imaxLat := (i0 :: irest).foldl Nat.max i0
      let iminLon := (j0 :: jrest).foldl Nat.min j0
      let imaxLon := (j0 :: jrest).foldl Nat.max j0
      let iminLat2 := growMinAux (fun i => rowNullAny V i iminLon imaxLon) iminLat
      let imaxLat2 := growMax (fun i => rowNullAny V i iminLon imaxLon) R imaxLat
      let iminLon2 := growMinAux (fun j => colNullAny V iminLat2 imaxLat2 j) iminLon
      let imaxLon2 := growMax (fun j => colNullAny V iminLat2 imaxLat2 j) C imaxLon
      if decide (iminLat2 < C) && decide (imaxLat2 < C) then
        .ok ⟨iminLat2, imaxLat2, iminLon2, imaxLon2⟩
      else .error .meshIndex

/-- One full iteration of the fill loop body after the attempt check:
window selection followed by the interpolation write back. -/
def fillBody (R C : ℕ) (lat lon : ℕ → ℚ)
    (interp : List (ℚ × ℚ × FVal) → ℚ → ℚ → FVal)
    (V : ℕ → ℕ → FVal) (draw : ℕ) : Except FillErr (ℕ → ℕ → FVal) :=
  match fillWindow R C lat lon V draw with
  | .error e => .error e
  | .ok w => .ok (writeBack R C lat lon interp V w)

/-- How the fill loop ended: the slice has no NaN left, or the attempt
budget was exceeded, which the source reports with a warning before
breaking (lines 130 to 138). -/
inductive ExitKind where
  | emptyMask
  | budgetExhausted
deriving DecidableEq

/-- The fill loop of lines 127 to 217: attempts start at zero with a
budget of ten; each iteration first tests the NaN mask, then the
budget, then relabels and possibly raises the budget to twice the
patch count, then runs the body with the next random draw from the
oracle.  The fuel argument bounds the recursion depth; a none result
means the fuel ran out before the loop ended. -/
def fillLoopAux (R C : ℕ) (lat lon : ℕ → ℚ)
    (interp : List (ℚ × ℚ × FVal) → ℚ → ℚ → FVal) (oracle : ℕ → ℕ) :
    ℕ → ℕ → ℕ → ℕ → (ℕ → ℕ → FVal) →
      Option (Except FillErr ((ℕ → ℕ → FVal) × ExitKind))
  | 0, _, _, _, _ => none
  | fuel + 1, k, attempts, maxAtt, V =>
    if !anyNull R C V then some (.ok (V, .emptyMask))
    else if attempts + 1 > maxAtt then some (.ok (V, .budgetExhausted))
    else
      let n := nPatches R C V
      let maxAtt2 := if n * 2 > maxAtt then n * 2 else maxAtt
      match fillBody R C lat lon interp V (oracle k) with
      | .error e => some (.error e)
      | .ok V2 => fillLoopAux R C lat lon interp oracle fuel (k + 1) (attempts + 1) maxAtt2 V2

/-- The fill engine for one slice, with fuel that dominates every
reachable budget: the budget can only be raised to twice the patch
count, and the patch count never exceeds the cell count. -/
def iterative_fill_holes (R C : ℕ) (lat lon : ℕ → ℚ)
    (interp : List (ℚ × ℚ × FVal) → ℚ → ℚ → FVal) (oracle : ℕ → ℕ)
    (V : ℕ → ℕ → FVal) : Option (Except FillErr ((ℕ → ℕ → FVal) × ExitKind)) :=
  fillLoopAux R C lat lon interp oracle (2 * (R * C) + 12) 0 0 10 V

/-- A concrete exact interpolator used to instantiate the abstract
interpolation hypothesis: look up the queried coordinate pair among
the sources.  Scipy griddata shares the property needed by the claims,
namely that it reproduces a source value at the source coordinates. -/
def findInterp (ps : List (ℚ × ℚ × FVal)) (la lo : ℚ) : FVal :=
  match ps.find? (fun e => decide (e.1 = la) && decide (e.2.1 = lo)) with
  | some e => e.2.2
  | none => .nan

/-- A constant interpolator, used to make the write back positions of
a fill iteration observable in a concrete run. -/
def constInterp99 : List (ℚ × ℚ × FVal) → ℚ → ℚ → FVal := fun _ _ _ => .fin 99

/-- The ok payload of a body result, with a default for the error
case. -/
def okOr (e : Except FillErr (ℕ → ℕ → FVal)) (d : ℕ → ℕ → FVal) : ℕ → ℕ → FVal :=
  match e with
  | .ok V => V
  | .error _ => d

/-- Whether an Except value is an ok value. -/
def exceptOkB {α : Type} (e : Except FillErr α) : Bool :=
  match e with
  | .ok _ => true
  | .error _ => false

/-- The ok payload of a window result, with a default for the error
case. -/
def windowOr (e : Except FillErr Window) (d : Window) : Window :=
  match e with
  | .ok w => w
  | .error _ => d

/-- Whether a loop result is the empty index selection error. -/
def isEmptyPatchErr (o : Option (Except FillErr ((ℕ → ℕ → FVal) × ExitKind))) : Bool :=
  match o with
  | some (.error .emptyPatchIdx) => true
  | _ => false

/-- Coordinate array equal to the index value, used by the concrete
fill engine runs. -/
def natCoord : ℕ → ℚ := fun i => (i : ℚ)

/-- Concrete two by two slice with a single NaN at (0, 0), used by the
claim C3 witness and the claim C6 evaluation. -/
def V0 : ℕ → ℕ → FVal :=
  fun i j => if decide (i = 0) && decide (j = 0) then .nan else .fin 1

/-- Concrete four by three slice with NaN cells at (1, 1) and (3, 0),
two separate patches, used by the claim C2 evaluation: drawing label
one selects the patch at (1, 1) whose grown window is the single cell
(1, 1). -/
def V4 : ℕ → ℕ → FVal :=
  fun i j =>
    if (decide (i = 1) && decide (j = 1)) || (decide (i = 3) && decide (j = 0))
    then .nan else .fin 5

/-- Concrete slice with every cell NaN, used by the claim C7
evaluation: the single patch gets label one, the only possible draw is
zero, and label zero occurs in no cell. -/
def Vall : ℕ → ℕ → FVal := fun _ _ => .nan

/-- Claim C5 counterexample: the finite value minus 2e10 has magnitude
above the sentinel, so the claim marks it missing, but the
normalization in _fill_holes_xr keeps it because the code only rejects
values that fail the one-sided test value below 1e10. -/
theorem sentinel_negative_value_kept :
    isnull (fill_holes_xr_normalize (.fin (-20000000000)))
      ≠ claim_sentinel_missing (.fin (-20000000000)) := by
  decide

/-- Claim C5 as amended: a cell is marked missing by the pre-fill
normalization exactly when it is NaN, infinite, or finite and at least
1e10; every cell is either kept with its value unchanged or replaced by
NaN. -/
theorem sentinel_normalization_characterization :
    ∀ v : FVal,
      isnull (fill_holes_xr_normalize v) = amended_sentinel_missing v ∧
      (fill_holes_xr_normalize v = v ∨ fill_holes_xr_normalize v = .nan) := by
  intro v
  cases v with
  | nan => exact ⟨rfl, Or.inr rfl⟩
  | inf => exact ⟨rfl, Or.inr rfl⟩
  | neginf => exact ⟨rfl, Or.inr rfl⟩
  | fin q =>
      by_cases h : q < 10000000000
      · refine ⟨?_, Or.inl ?_⟩ <;>
          simp [fill_holes_xr_normalize, fwhere, flt, isinf, isnull, isnan,
            amended_sentinel_missing, h, not_le.mpr h]
      · refine ⟨?_, Or.inr ?_⟩ <;>
          simp [fill_holes_xr_normalize, fwhere, flt, isinf, isnull, isnan,
            amended_sentinel_missing, h, not_lt.mp h]

/-- Helper: a value whose isnan test is true is the NaN value. -/
theorem isnan_eq (v : FVal) (h : isnan v = true) : v = .nan := by
  cases v <;> simp [isnan] at h ⊢

/-- Helper: multiplying anything by NaN yields NaN. -/
theorem fmul_nan_right (x : FVal) : fmul x .nan = .nan := by
  cases x <;> rfl

/-- Helper: dividing any value by the finite zero yields NaN or an
infinity, never a finite value. -/
theorem fdiv_zero_nonfinite (x : FVal) : nonfinite (fdiv x (.fin 0)) = true := by
  cases x with
  | nan => rfl
  | inf => simp [fdiv, nonfinite]
  | neginf => simp [fdiv, nonfinite]
  | fin a =>
      by_cases h : a = 0
      · simp [fdiv, nonfinite, h]
      · by_cases h2 : 0 < a <;> simp [fdiv, nonfinite, h, h2]

/-- Helper: two successive filters of a list commute. -/
theorem filter_swap {α : Type} (l : List α) (p q : α → Bool) :
    (l.filter p).filter q = (l.filter q).filter p := by
  induction l with
  | nil => rfl
  | cons a l ih => cases hp : p a <;> cases hq : q a <;> simp [List.filter_cons, hp, hq, ih]

/-- Helper: dropping the NaN entries of a mapped list is unchanged by
first removing the elements the map sends to NaN. -/
theorem skipna_map_filter {α : Type} (l : List α) (f : α → FVal) (K : α → Bool)
    (h : ∀ p ∈ l, K p = false → isnan (f p) = true) :
    (l.map f).filter (fun v => !isnan v)
      = ((l.filter K).map f).filter (fun v => !isnan v) := by
  induction l with
  | nil => rfl
  | cons p l ih =>
      have hl : ∀ q ∈ l, K q = false → isnan (f q) = true :=
        fun q hq => h q (List.mem_cons_of_mem _ hq)
      cases hK : K p with
      | true => simp [List.filter_cons, List.map_cons, hK, ih hl]
      | false =>
          have hp : isnan (f p) = true := h p (List.mem_cons_self _ _) hK
          simp [List.filter_cons, List.map_cons, hK, hp, ih hl]

/-- Claim C4: the weight used in both the numerator and the denominator
of every region group is the single pass substitution of the source,
which agrees with the specification wording: the backup weight exactly
when the primary weight is missing or not positive, the primary weight
unchanged otherwise, with the substituted backup never checked again. -/
theorem fallback_substitution_single_pass :
    (∀ w b, substWeight w b = spec_substituted_weight w b) ∧
    (∀ (pts : List Pt) (r : ℤ) (t : ℕ),
      regionNum pts r t = sumSkipNA ((regionPts pts r).map
        (fun p => fmul (p.value t) (spec_substituted_weight p.aggwt p.backup))) ∧
      regionDen pts r = sumSkipNA ((regionPts pts r).map
        (fun p => spec_substituted_weight p.aggwt p.backup))) := by
  have hsub : ∀ w b, substWeight w b = spec_substituted_weight w b := by
    intro w b
    cases w with
    | nan => rfl
    | inf => rfl
    | neginf => rfl
    | fin q =>
        by_cases h : 0 < q
        · simp [substWeight, spec_substituted_weight, fwhere, ffillna, fgt, flt,
            fle, isnan, h, not_le.mpr h]
        · simp [substWeight, spec_substituted_weight, fwhere, ffillna, fgt, flt,
            fle, isnan, h, not_lt.mp h]
  refine ⟨hsub, fun pts r t => ⟨?_, ?_⟩⟩
  · unfold regionNum
    simp only [hsub]
  · unfold regionDen
    simp only [hsub]

/-- Claim C8: when the substituted weights of a region group sum to
exactly zero the stored value of that region is the unmasked result of
the division, hence NaN or an infinity, and the value stored for any
other region depends only on the points of that other group. -/
theorem zero_weight_division_propagates
    (pts ptsB : List Pt) (r rb : ℤ) (t tb : ℕ)
    (hden : regionDen pts r = .fin 0)
    (hsame : regionPts pts rb = regionPts ptsB rb) :
    nonfinite (aggregate pts r t) = true ∧
    aggregate pts r t = fdiv (regionNum pts r t) (regionDen pts r) ∧
    aggregate pts rb tb = aggregate ptsB rb tb := by
  refine ⟨?_, rfl, ?_⟩
  · unfold aggregate
    rw [hden]
    exact fdiv_zero_nonfinite _
  · unfold aggregate regionNum regionDen
    rw [hsame]

/-- Witness for claim C8 at a concrete input: a single region 0 point
with value 3 and both weights zero has a zero weight sum, and its
stored region value is not finite. -/
theorem zero_weight_division_propagates_witness :
    regionDen ptsZeroWt 0 = .fin 0 ∧ nonfinite (aggregate ptsZeroWt 0 0) = true := by
  have hden : regionDen ptsZeroWt 0 = .fin 0 := by
    simp [regionDen, regionPts, ptsZeroWt, sumSkipNA, substWeight, ffillna,
      fwhere, fgt, flt, isnan, fadd]
  exact ⟨hden, (zero_weight_division_propagates ptsZeroWt ptsZeroWt 0 1 0 0
    hden rfl).1⟩

/-- Claim C9: a point whose primary and backup weights are both missing
contributes NaN to both sums, which the skipna sums drop, so every
region value equals the value computed from the table with those
points removed. -/
theorem both_weights_missing_skipped :
    ∀ (pts : List Pt) (r : ℤ) (t : ℕ),
      aggregate pts r t = aggregate (pts.filter someWeightPresent) r t := by
  intro pts r t
  have hreg : regionPts (pts.filter someWeightPresent) r
      = (regionPts pts r).filter someWeightPresent := by
    unfold regionPts
    exact filter_swap pts someWeightPresent (fun p => decide (p.region = r))
  have hboth : ∀ p : Pt, someWeightPresent p = false →
      substWeight p.aggwt p.backup = FVal.nan := by
    intro p hp
    simp only [someWeightPresent, Bool.not_eq_false', Bool.and_eq_true] at hp
    rw [isnan_eq _ hp.1, isnan_eq _ hp.2]
    rfl
  have hnum : ∀ p ∈ regionPts pts r, someWeightPresent p = false →
      isnan (fmul (p.value t) (substWeight p.aggwt p.backup)) = true := by
    intro p _ hp
    rw [hboth p hp, fmul_nan_right]
    rfl
  have hden : ∀ p ∈ regionPts pts r, someWeightPresent p = false →
      isnan (substWeight p.aggwt p.backup) = true := by
    intro p _ hp
    rw [hboth p hp]
    rfl
  have h1 : regionNum (pts.filter someWeightPresent) r t = regionNum pts r t := by
    unfold regionNum
    rw [hreg]
    unfold sumSkipNA
    exact congrArg (fun l => List.foldl fadd (FVal.fin 0) l)
      (skipna_map_filter (regionPts pts r) _ someWeightPresent hnum).symm
  have h2 : regionDen (pts.filter someWeightPresent) r = regionDen pts r := by
    unfold regionDen
    rw [hreg]
    unfold sumSkipNA
    exact congrArg (fun l => List.foldl fadd (FVal.fin 0) l)
      (skipna_map_filter (regionPts pts r) _ someWeightPresent hden).symm
  unfold aggregate
  rw [h1, h2]

/-- Helper: when the axis coordinates are injective on the axis range,
the exact lookup of the coordinate value at position b returns b. -/
theorem coordIdx_self (n : ℕ) (coord : ℕ → ℚ)
    (hinj : ∀ a, a < n → ∀ b, b < n → coord a = coord b → a = b)
    (b : ℕ) (hb : b < n) : coordIdx n coord (coord b) = some b := by
  unfold coordIdx
  cases h : (List.range n).find? (fun a => decide (coord a = coord b)) with
  | none =>
      exfalso
      have h2 := List.find?_eq_none.mp h b (List.mem_range.mpr hb)
      simp at h2
  | some a2 =>
      have h1 := List.find?_some h
      have h3 := List.mem_of_find?_eq_some h
      have h4 : a2 = b := hinj a2 (List.mem_range.mp h3) b hb (by simpa using h1)
      rw [h4]

/-- Claim C1: for a table whose rows all have exact coordinate matches
on a grid with injective coordinate arrays, the reindex result exists,
its point dimension length is the table row count, and the value at a
point whose row reads the coordinates of grid cell (a, b) equals the
grid value at that cell for every broadcast position. -/
theorem reindex_exact_match
    (ds : GridDS) (rows : List (ℚ × ℚ))
    (hlat : ∀ a, a < ds.R → ∀ b, b < ds.R → ds.lat a = ds.lat b → a = b)
    (hlon : ∀ a, a < ds.C → ∀ b, b < ds.C → ds.lon a = ds.lon b → a = b)
    (hall : ∀ row ∈ rows, ((coordIdx ds.C ds.lon row.1).isSome
        && (coordIdx ds.R ds.lat row.2).isSome) = true)
    (k a b : ℕ) (ha : a < ds.R) (hb : b < ds.C)
    (hk : rows.get? k = some (ds.lon b, ds.lat a)) :
    ∃ out, _reindex_spatial_data_to_regions ds rows = some out ∧
      out.npoints = rows.length ∧ ∀ t, out.val k t = ds.val t a b := by
  have hcond : rows.all (fun row => (coordIdx ds.C ds.lon row.1).isSome
      && (coordIdx ds.R ds.lat row.2).isSome) = true :=
    List.all_eq_true.mpr hall
  unfold _reindex_spatial_data_to_regions
  rw [hcond]
  simp only [if_true]
  refine ⟨_, rfl, rfl, fun t => ?_⟩
  simp only [hk, coordIdx_self ds.C ds.lon hlon b hb, coordIdx_self ds.R ds.lat hlat a ha]

/-- Witness for claim C1 at a concrete input: the single row table
rows0 matches grid cell lat index 1, lon index 0 of ds0 exactly, and
the reindexed value at point 0 equals that cell value. -/
theorem reindex_exact_match_witness :
    (1 : ℕ) < 2 ∧
    ∃ out, _reindex_spatial_data_to_regions ds0 rows0 = some out ∧
      out.npoints = rows0.length ∧ ∀ t, out.val 0 t = ds0.val t 1 0 := by
  refine ⟨by decide, ?_⟩
  refine reindex_exact_match ds0 rows0 ?_ ?_ ?_ 0 1 0 (by decide) (by decide) ?_
  · intro a _ b _ h
    simp only [ds0] at h
    exact_mod_cast h
  · intro a _ b _ h
    simp only [ds0] at h
    exact_mod_cast h
  · decide
  · decide

/-- Claim C10: the public weighted aggregation returns the caller
owned gridded dataset and weights table unchanged; every attachment
performed by the reduction step lands on the freshly constructed point
indexed object, which the embedding makes explicit by threading both
inputs through as state. -/
theorem weighted_aggregate_preserves_inputs :
    ∀ (ds : GridDS) (rows : List WRow),
      (weighted_aggregate_grid_to_regions ds rows).2.1 = ds ∧
      (weighted_aggregate_grid_to_regions ds rows).2.2 = rows := by
  intro ds rows
  unfold weighted_aggregate_grid_to_regions
  cases _reindex_spatial_data_to_regions ds (rows.map (fun r => (r.lon, r.lat))) with
  | none => exact ⟨rfl, rfl⟩
  | some pds => exact ⟨rfl, rfl⟩

/-- Helper: membership in a concatenated list of lists. -/
theorem mem_catLists {α : Type} (x : α) (L : List (List α)) :
    x ∈ catLists L ↔ ∃ l ∈ L, x ∈ l := by
  induction L with
  | nil => simp [catLists]
  | cons l ls ih =>
      simp only [catLists, List.mem_append, ih, List.mem_cons]
      constructor
      · rintro (h | ⟨m, hm, hx⟩)
        · exact ⟨l, Or.inl rfl, h⟩
        · exact ⟨m, Or.inr hm, hx⟩
      · rintro ⟨m, (rfl | hm), hx⟩
        · exact Or.inl hx
        · exact Or.inr ⟨m, hm, hx⟩

/-- Helper: a cell is extracted exactly when it is in range and the
selection condition holds at it. -/
theorem mem_extractedCells (R C : ℕ) (lat lon : ℕ → ℚ) (w : Window) (a b : ℕ) :
    (a, b) ∈ extractedCells R C lat lon w ↔
      a < R ∧ b < C ∧ extractCond lat lon w b a = true := by
  unfold extractedCells
  rw [mem_catLists]
  constructor
  · rintro ⟨l, hl, hx⟩
    obtain ⟨j, hj, rfl⟩ := List.mem_map.mp hl
    obtain ⟨i, hi, hij⟩ := List.mem_map.mp hx
    obtain ⟨hiR, hcond⟩ := List.mem_filter.mp hi
    injection hij with h1 h2
    subst h1
    subst h2
    exact ⟨List.mem_range.mp hiR, List.mem_range.mp hj, hcond⟩
  · rintro ⟨ha, hb, hcond⟩
    refine ⟨((List.range R).filter (fun i => extractCond lat lon w b i)).map
      (fun i => (i, b)), ?_, ?_⟩
    · exact List.mem_map.mpr ⟨b, List.mem_range.mpr hb, rfl⟩
    · exact List.mem_map.mpr ⟨a, List.mem_filter.mpr ⟨List.mem_range.mpr ha, hcond⟩, rfl⟩

/-- Helper: the interpolation sources are exactly the in range,
selected, unmasked cells with their coordinates and values. -/
theorem mem_fillSources (R C : ℕ) (lat lon : ℕ → ℚ) (V : ℕ → ℕ → FVal) (w : Window)
    (e : ℚ × ℚ × FVal) :
    e ∈ fillSources R C lat lon V w ↔
      ∃ a, ∃ b, a < R ∧ b < C ∧ extractCond lat lon w b a = true ∧
        isinvalid (V a b) = false ∧ e = (lat a, lon b, V a b) := by
  unfold fillSources
  constructor
  · intro he
    obtain ⟨p, hp, hpe⟩ := List.mem_map.mp he
    obtain ⟨hmem, hval⟩ := List.mem_filter.mp hp
    obtain ⟨a, b⟩ := p
    have h3 := (mem_extractedCells R C lat lon w a b).mp hmem
    refine ⟨a, b, h3.1, h3.2.1, h3.2.2, ?_, hpe.symm⟩
    simpa using hval
  · rintro ⟨a, b, ha, hb, hcond, hval, rfl⟩
    refine List.mem_map.mpr ⟨(a, b), List.mem_filter.mpr ⟨?_, ?_⟩, rfl⟩
    · exact (mem_extractedCells R C lat lon w a b).mpr ⟨ha, hb, hcond⟩
    · simp [hval]

/-- Helper: the lookup interpolator reproduces a source value whose
coordinate pair occurs only with that value among the sources. -/
theorem findInterp_exact (ps : List (ℚ × ℚ × FVal)) (la lo : ℚ) (v : FVal)
    (hmem : (la, lo, v) ∈ ps) (huniq : ∀ v2, (la, lo, v2) ∈ ps → v2 = v) :
    findInterp ps la lo = v := by
  unfold findInterp
  cases h : ps.find? (fun e => decide (e.1 = la) && decide (e.2.1 = lo)) with
  | none =>
      exfalso
      have h2 := List.find?_eq_none.mp h (la, lo, v) hmem
      simp at h2
  | some e =>
      obtain ⟨e1, e2, e3⟩ := e
      have h1 := List.find?_some h
      have h3 := List.mem_of_find?_eq_some h
      simp only [Bool.and_eq_true, decide_eq_true_eq] at h1
      obtain ⟨hla, hlo⟩ := h1
      subst hla
      subst hlo
      exact huniq e3 h3

/-- Claim C3: one successful fill iteration leaves every valid cell
valid, its interpolation sources are exactly values of currently valid
cells, and every write is the interpolation estimate over those
sources, so no cell is filled from missing neighbours and the missing
set cannot grow across an iteration. -/
theorem fill_iteration_preserves_valid
    (R C : ℕ) (lat lon : ℕ → ℚ)
    (interp : List (ℚ × ℚ × FVal) → ℚ → ℚ → FVal)
    (hlat : ∀ a, a < R → ∀ b, b < R → lat a = lat b → a = b)
    (hlon : ∀ a, a < C → ∀ b, b < C → lon a = lon b → a = b)
    (hinterp : ∀ ps la lo v, (la, lo, v) ∈ ps →
        (∀ v2, (la, lo, v2) ∈ ps → v2 = v) → interp ps la lo = v)
    (V V2 : ℕ → ℕ → FVal) (draw : ℕ)
    (hrun : fillBody R C lat lon interp V draw = .ok V2) :
    ∃ w, fillWindow R C lat lon V draw = .ok w ∧
      (∀ i, i < R → ∀ j, j < C → isinvalid (V i j) = false → isinvalid (V2 i j) = false) ∧
      (∀ e ∈ fillSources R C lat lon V w, ∃ a, ∃ b, a < R ∧ b < C ∧
          isinvalid (V a b) = false ∧ e = (lat a, lon b, V a b)) ∧
      (∀ i j, V2 i j = V i j ∨
          V2 i j = interp (fillSources R C lat lon V w) (lat i) (lon j)) := by
  unfold fillBody at hrun
  cases hw : fillWindow R C lat lon V draw with
  | error e =>
      rw [hw] at hrun
      exact absurd hrun (by simp)
  | ok w =>
      rw [hw] at hrun
      have hV2 : V2 = writeBack R C lat lon interp V w := by
        injection hrun with h
        exact h.symm
      subst hV2
      refine ⟨w, rfl, ?_, ?_, ?_⟩
      · intro i hi j hj hvalid
        unfold writeBack
        by_cases hc : (decide (i < R) && decide (j < C) && extractCond lat lon w j i) = true
        · rw [if_pos hc]
          have hcond : extractCond lat lon w j i = true := by
            simp only [Bool.and_eq_true] at hc
            exact hc.2
          have hmem : (lat i, lon j, V i j) ∈ fillSources R C lat lon V w :=
            (mem_fillSources R C lat lon V w _).mpr ⟨i, j, hi, hj, hcond, hvalid, rfl⟩
          have huniq : ∀ v2, (lat i, lon j, v2) ∈ fillSources R C lat lon V w →
              v2 = V i j := by
            intro v2 hv2
            obtain ⟨a, b, ha, hb, _, _, heq⟩ := (mem_fillSources R C lat lon V w _).mp hv2
            have h1 : lat i = lat a := congrArg Prod.fst heq
            have h23 := congrArg Prod.snd heq
            have h2 : lon j = lon b := congrArg Prod.fst h23
            have h3 : v2 = V a b := congrArg Prod.snd h23
            have ha2 : a = i := hlat a ha i hi h1.symm
            have hb2 : b = j := hlon b hb j hj h2.symm
            rw [ha2, hb2] at h3
            exact h3
          rw [hinterp _ _ _ _ hmem huniq]
          exact hvalid
        · rw [if_neg hc]
          exact hvalid
      · intro e he
        obtain ⟨a, b, ha, hb, _, hval, heq⟩ := (mem_fillSources R C lat lon V w _).mp he
        exact ⟨a, b, ha, hb, hval, heq⟩
      · intro i j
        unfold writeBack
        by_cases hc : (decide (i < R) && decide (j < C) && extractCond lat lon w j i) = true
        · rw [if_pos hc]
          exact Or.inr rfl
        · rw [if_neg hc]
          exact Or.inl rfl

/-- Witness for claim C3 at a concrete input: on the two by two slice
with one NaN the first iteration succeeds and the valid cell (0, 1) is
still valid afterwards. -/
theorem fill_iteration_preserves_valid_witness :
    isinvalid (V0 0 1) = false ∧
    isinvalid (okOr (fillBody 2 2 natCoord natCoord findInterp V0 0) V0 0 1) = false := by
  refine ⟨by decide, ?_⟩
  cases hw : fillBody 2 2 natCoord natCoord findInterp V0 0 with
  | error e =>
      have hok : exceptOkB (fillBody 2 2 natCoord natCoord findInterp V0 0) = true := by
        decide
      rw [hw] at hok
      simp [exceptOkB] at hok
  | ok V2 =>
      obtain ⟨w, _, hpres, _, _⟩ := fill_iteration_preserves_valid 2 2 natCoord natCoord
        findInterp
        (fun a _ b _ hh => by
          simp only [natCoord] at hh
          exact_mod_cast hh)
        (fun a _ b _ hh => by
          simp only [natCoord] at hh
          exact_mod_cast hh)
        (fun ps la lo v hm hu => findInterp_exact ps la lo v hm hu)
        V0 V2 0 hw
      have h2 := hpres 0 (by decide) 1 (by decide) (by decide)
      simp only [okOr, hw]
      exact h2

/-- Claim C2 evaluation at a failing input: on the four by three slice
V4 with draw one, the grown window is the single cell (1, 1), yet the
selection condition also holds at cell (0, 1), whose lat coordinate
lies outside the grown lat value window, and the iteration writes the
interpolation result into that outside cell. -/
theorem extraction_ignores_lat_window :
    exceptOkB (fillWindow 4 3 natCoord natCoord V4 1) = true ∧
    windowOr (fillWindow 4 3 natCoord natCoord V4 1) ⟨0, 0, 0, 0⟩ = ⟨1, 1, 1, 1⟩ ∧
    extractCond natCoord natCoord ⟨1, 1, 1, 1⟩ 1 0 = true ∧
    claim_window_cond natCoord natCoord ⟨1, 1, 1, 1⟩ 0 1 = false ∧
    okOr (fillBody 4 3 natCoord natCoord constInterp99 V4 1) V4 0 1 = .fin 99 ∧
    V4 0 1 = .fin 5 := by
  refine ⟨by decide, by decide, by decide, by decide, ?_, by decide⟩
  decide

/-- Claim C6 evaluation at a failing input: on the two by two slice
with one NaN cell there is one patch, carrying label one, but the
random draw ranges over range(n_ptch) = [0] only, so the patch label
one can never be drawn, label zero marks exactly the valid background
cells, and the index set the selection step computes for the only
possible draw spans the rows of the valid cells, not the rows of the
patch. -/
theorem patch_draw_selects_background :
    nPatches 2 2 V0 = 1 ∧
    possibleDraws 2 2 V0 = [0] ∧
    patchLabel 2 2 V0 (0, 0) = 1 ∧
    ¬ (1 ∈ possibleDraws 2 2 V0) ∧
    (∀ i, i < 2 → ∀ j, j < 2 →
      (patchLabel 2 2 V0 (i, j) = 0 ↔ isinvalid (V0 i j) = false)) ∧
    selLatIdxs 2 2 V0 0 = [0, 1] ∧
    selLatIdxs 2 2 V0 1 = [0] := by
  decide

/-- Claim C7 evaluation at a failing input: on a slice whose cells are
all NaN, the first iteration draws label zero from range(1), the label
zero occurs in no cell, and the engine stops with the empty index
selection error (a Python ValueError from taking min of an empty
array) instead of either of the two documented exits. -/
theorem all_missing_slice_raises :
    isEmptyPatchErr (iterative_fill_holes 2 2 natCoord natCoord findInterp
      (fun _ => 0) Vall) = true := by
  decide
